import Mathlib

/-!
Verification of the `anomaly-times` repository core against its
natural-language specification.

Shallow embedding conventions:
* Python floats are modelled as exact rationals (`ℚ`); the numeric claims
  under scrutiny involve only exact arithmetic at the sampled points.
* Epoch timestamps are modelled as `Int` (epoch seconds/minutes).
* Pandas frames are modelled as lists of typed rows; the `unique (timestamp,
  series)` key invariant of the spec's PanelFrame is carried as an explicit
  `Nodup` hypothesis where a theorem needs it.
* Fallible Python operations (storage probe, artifact load, artifact save)
  are modelled by explicit outcome parameters.
-/

/- ## Anomaly scoring (src/anomaly_times/core/anomaly.py, `score_row`) -/

/-- Embedding of `score_row` (anomaly.py lines 43-63): `width = upper - lower`;
if `width <= 1e-9` return `abs(actual - pred)`; otherwise
`abs(actual - pred) / (width / 2.0)`. -/
def score_row (actual pred lower upper : ℚ) : ℚ :=
  let width := upper - lower
  if width ≤ 1 / 1000000000 then
    |actual - pred|
  else
    let half_width := width / 2
    let deviation := |actual - pred|
    deviation / half_width

/- ## Model-artifact cache (src/anomaly_times/models/utils.py, `run_stateful_model`;
     mirrored in src/anomaly_times/flows/forecasting.py, `load_and_predict`) -/

/-- Result of probing the artifact store at the storage path
(`fs.exists` / `fs.info` in utils.py lines 55-67): the probe itself may raise
(caught at line 77), the artifact may be absent, or present with an age in
hours computed at line 67. -/
inductive ProbeResult where
  | probeError : ProbeResult
  | absent : ProbeResult
  | present (ageHours : ℚ) : ProbeResult
deriving DecidableEq

/-- Outcome of `model_class.load(storage_path)` (utils.py line 71): success or
an exception (caught by the surrounding `except` at line 77). -/
inductive LoadOutcome where
  | loadOk : LoadOutcome
  | loadFail : LoadOutcome
deriving DecidableEq

/-- Outcome of `model.save(storage_path)` (utils.py line 90): success or an
exception (caught and logged at lines 91-92). -/
inductive SaveOutcome where
  | saveOk : SaveOutcome
  | saveFail : SaveOutcome
deriving DecidableEq

/-- The cache resolution action: deserialize the stored artifact, or construct
and fit a fresh model. -/
inductive CacheAction where
  | load : CacheAction
  | refit : CacheAction
deriving DecidableEq

/-- Which in-memory model instance reaches `model.predict` at utils.py line 95. -/
inductive ModelUsed where
  | loadedModel : ModelUsed
  | freshModel : ModelUsed
deriving DecidableEq

/-- Observable outcome of one `run_stateful_model` call. -/
structure RunResult where
  action : CacheAction
  used : ModelUsed
  fitted : Bool
  saveAttempted : Bool
  savePersisted : Bool
  fatalError : Bool
deriving DecidableEq

/-- The value `should_fit` holds when `run_stateful_model` (utils.py lines
36-95) reaches line 81.  `should_fit` starts `True`; when a storage path is
given the probe runs inside `try`; on `present age` with
`age < fit_expiration_hours` the artifact is loaded and only then
`should_fit` is set `False` (lines 71-72), so a load exception leaves
`should_fit = True`; any probe error is caught at line 77. -/
def resolveShouldFit (storageGiven : Bool) (probe : ProbeResult)
    (loadR : LoadOutcome) (expirationHours : ℚ) : Bool :=
  if storageGiven then
    match probe with
    | .probeError => true
    | .absent => true
    | .present age =>
      if age < expirationHours then
        match loadR with
        | .loadOk => false
        | .loadFail => true
      else true
  else true

/-- Embedding of `run_stateful_model` (utils.py lines 36-95; mirrored by
`load_and_predict`, forecasting.py lines 52-104): if `should_fit` holds
after the storage check (see `resolveShouldFit`), the model is constructed
and fitted (lines 81-84) and, when a storage path is given, a save is
attempted with failures caught and logged at lines 89-92; otherwise the
loaded artifact is used and nothing is fitted or saved.  Prediction at
line 95 always uses the resulting in-memory model; no branch raises. -/
def run_stateful_model (storageGiven : Bool) (probe : ProbeResult)
    (loadR : LoadOutcome) (saveR : SaveOutcome) (expirationHours : ℚ) :
    RunResult :=
  if resolveShouldFit storageGiven probe loadR expirationHours then
    { action := .refit
      used := .freshModel
      fitted := true
      saveAttempted := storageGiven
      savePersisted := storageGiven && (saveR = SaveOutcome.saveOk)
      fatalError := false }
  else
    { action := .load
      used := .loadedModel
      fitted := false
      saveAttempted := false
      savePersisted := false
      fatalError := false }

/- ## Panel frames and joins (src/anomaly_times/flows/detection.py and
     src/anomaly_times/core/anomaly.py) -/

/-- A row of a single-component panel as returned by `read_metric`
(reader.py): `[timestamp, unique_id, value]`. -/
structure RTRow where
  t : Int
  uid : String
  value : ℚ
deriving DecidableEq

/-- A row of the composite forecast frame `forecast_full` built by the two
outer merges at detection.py lines 74-75; components absent from a side of an
outer merge are missing (`none`, NaN in pandas). -/
structure FCRow where
  t : Int
  uid : String
  pred : Option ℚ
  lower : Option ℚ
  upper : Option ℚ
deriving DecidableEq

/-- A row of `merged` (detection.py line 79): realtime value paired with the
forecast tuple. -/
structure MRow where
  t : Int
  uid : String
  value : ℚ
  pred : Option ℚ
  lower : Option ℚ
  upper : Option ℚ
deriving DecidableEq

/-- First-occurrence deduplication (accumulator of already-seen keys):
models the key order of chained pandas outer merges, where keys appear in
left-frame order followed by unmatched right-frame keys. -/
def dedupFirstAux (seen : List (Int × String)) :
    List (Int × String) → List (Int × String)
  | [] => []
  | k :: rest =>
    if k ∈ seen then dedupFirstAux seen rest
    else k :: dedupFirstAux (k :: seen) rest

/-- The join key `[timestamp, unique_id]` of a realtime row. -/
def keyOf (r : RTRow) : Int × String := (r.t, r.uid)

/-- Value of the single-component panel `p` at key `k`, if present. -/
def findVal (p : List RTRow) (k : Int × String) : Option ℚ :=
  (p.find? (fun r => keyOf r = k)).map (fun r => r.value)

/-- Embedding of the two chained outer merges on `[timestamp, unique_id]`
(detection.py lines 74-75) assembling `forecast_full` from the `anomaly_pred`,
`anomaly_lower`, `anomaly_upper` panels: every key present in any input
appears once, carrying whichever components are present. -/
def outerJoin3 (pred lower upper : List RTRow) : List FCRow :=
  let ks := dedupFirstAux []
    (pred.map keyOf ++ lower.map keyOf ++ upper.map keyOf)
  ks.map (fun k =>
    { t := k.1, uid := k.2
      pred := findVal pred k
      lower := findVal lower k
      upper := findVal upper k })

/-- Embedding of the inner merge on `[timestamp, unique_id]` at
detection.py line 79: for each realtime row, keep it iff the forecast frame
has a row with the same key, pairing the realtime value with the forecast
tuple.  (With unique keys on both sides this is exactly pandas
`merge(..., how='inner')`, in left-frame row order.) -/
def innerJoinPanels (real : List RTRow) (fc : List FCRow) : List MRow :=
  real.filterMap (fun r =>
    (fc.find? (fun f => f.t = r.t && f.uid = r.uid)).map (fun f =>
      { t := r.t, uid := r.uid, value := r.value
        pred := f.pred, lower := f.lower, upper := f.upper }))

/-- Embedding of `calculate_anomaly_score` (anomaly.py lines 29-69): return
the empty frame if either input is empty, else inner-join the two frames on
the timestamp index and score each matched row with `score_row`. -/
def calculate_anomaly_score (realtime : List (Int × ℚ))
    (forecast : List (Int × ℚ × ℚ × ℚ)) : List (Int × ℚ) :=
  if realtime.isEmpty || forecast.isEmpty then []
  else
    realtime.filterMap (fun r =>
      (forecast.find? (fun f => f.1 = r.1)).map (fun f =>
        (r.1, score_row r.2 f.2.1 f.2.2.1 f.2.2.2)))

/-- Terminal status of one detection run. -/
inductive DetectOutcome where
  | skipped : DetectOutcome
  | wrote (rows : Nat) : DetectOutcome
deriving DecidableEq

/-- Embedding of the control flow of `detect_anomalies_flow`
(detection.py lines 59-121) after the four reads: the run returns early
(a no-op) iff `real_df.empty or pred_df.empty` (line 63) or the
realtime/forecast inner merge is empty (lines 81-83); otherwise it scores
and writes one `anomaly_score` row per merged row (lines 93-121).  The
`score_df.empty` early return at line 98 cannot fire when `merged` is
non-empty: `calculate_anomaly_score(merged, merged)` inner-joins a non-empty
frame with itself on timestamps, and every row matches itself. -/
def detect_anomalies_flow (real pred lower upper : List RTRow) :
    DetectOutcome :=
  if real.isEmpty || pred.isEmpty then .skipped
  else
    let fc := outerJoin3 pred lower upper
    let merged := innerJoinPanels real fc
    if merged.isEmpty then .skipped
    else .wrote merged.length

/- ## Label codec (src/anomaly_times/core/reader.py `make_id`,
     src/anomaly_times/core/writer.py `parse_labels`)

`make_id` is `json.dumps(labels, sort_keys=True)` and `parse_labels` is
`json.loads(uid)` with a catch-all fallback.  The Python `json` standard
library called by the source is embedded below, restricted to the shapes the
identifiers use: JSON strings with the full default escaping rules of
`json.dumps` (`ensure_ascii=True`: `\"`, `\\`, `\b`, `\f`, `\n`, `\r`, `\t`,
`\uXXXX`, surrogate pairs above U+FFFF) and flat objects whose values are
strings.  Python strings are modelled as lists of Unicode scalar values
(lone surrogates are not representable; inputs whose parse would produce one
are treated as parse failures).  Other top-level JSON value kinds, which no
identifier produced by this program ever takes, are likewise treated as
parse failures. -/

/-- Lowercase hexadecimal digit character for `n < 16`, as produced by
Python's `'\x5cu%04x'` formatting. -/
def hexDigit (n : Nat) : Char :=
  Char.ofNat (if n < 10 then 48 + n else 87 + n)

/-- The four hex digits of `n < 65536`, most significant first. -/
def hex4 (n : Nat) : List Char :=
  [hexDigit (n / 4096 % 16), hexDigit (n / 256 % 16),
   hexDigit (n / 16 % 16), hexDigit (n % 16)]

/-- Value of one hexadecimal digit character (either case), if any. -/
def readHex (c : Char) : Option Nat :=
  let n := c.toNat
  if 48 ≤ n ∧ n ≤ 57 then some (n - 48)
  else if 97 ≤ n ∧ n ≤ 102 then some (n - 87)
  else if 65 ≤ n ∧ n ≤ 70 then some (n - 55)
  else none

/-- Value of four hexadecimal digit characters, if all are digits. -/
def hex4Val (d1 d2 d3 d4 : Char) : Option Nat :=
  match readHex d1, readHex d2, readHex d3, readHex d4 with
  | some a, some b, some c, some d => some (((a * 16 + b) * 16 + c) * 16 + d)
  | _, _, _, _ => none

/-- JSON escaping of one character, per `json.dumps` with its default
`ensure_ascii=True`: printable ASCII other than quote and backslash is kept,
the short escapes cover the usual control characters, every other character
becomes `\uXXXX`, with a surrogate pair above U+FFFF. -/
def escapeChar (c : Char) : List Char :=
  if c = '"' then ['\\', '"']
  else if c = '\\' then ['\\', '\\']
  else if c = '\x08' then ['\\', 'b']
  else if c = '\x0c' then ['\\', 'f']
  else if c = '\n' then ['\\', 'n']
  else if c = '\r' then ['\\', 'r']
  else if c = '\t' then ['\\', 't']
  else if 32 ≤ c.toNat ∧ c.toNat ≤ 126 then [c]
  else if c.toNat < 65536 then '\\' :: 'u' :: hex4 c.toNat
  else
    '\\' :: 'u' :: hex4 (55296 + (c.toNat - 65536) / 1024) ++
      '\\' :: 'u' :: hex4 (56320 + (c.toNat - 65536) % 1024)

/-- JSON escaping of a character sequence. -/
def escapeList : List Char → List Char
  | [] => []
  | c :: rest => escapeChar c ++ escapeList rest

/-- A serialized JSON string: quote, escaped content, quote. -/
def dumpStringChars (s : List Char) : List Char :=
  '"' :: (escapeList s ++ ['"'])

/-- Decoding of the single-character JSON escapes accepted by `json.loads`. -/
def simpleEscape (e : Char) : Option Char :=
  if e = '"' then some '"'
  else if e = '\\' then some '\\'
  else if e = '/' then some '/'
  else if e = 'b' then some '\x08'
  else if e = 'f' then some '\x0c'
  else if e = 'n' then some '\n'
  else if e = 'r' then some '\r'
  else if e = 't' then some '\t'
  else none

/-- Prepend a decoded character to a string-parse result. -/
def consStr (c : Char) (o : Option (List Char × List Char)) :
    Option (List Char × List Char) :=
  o.map (fun p => (c :: p.1, p.2))

/-- JSON string body scanner (Python `json` `scanstring`, strict mode),
entered after the opening quote: returns the decoded content and the
characters after the closing quote.  Unescaped control characters are
errors; `\uXXXX` decodes a scalar, with high/low surrogate pairs combined;
escape sequences that would produce a lone surrogate are parse failures
(such a result is not representable here).  The fuel argument bounds the
number of scanner steps and is immaterial whenever it exceeds the input
length. -/
def parseJStringF : Nat → List Char → Option (List Char × List Char)
  | 0, _ => none
  | _ + 1, [] => none
  | fuel + 1, c :: rest =>
    if c = '"' then some ([], rest)
    else if c = '\\' then
      match rest with
      | [] => none
      | e :: r =>
        if e = 'u' then
          match r with
          | d1 :: d2 :: d3 :: d4 :: r2 =>
            match hex4Val d1 d2 d3 d4 with
            | none => none
            | some n =>
              if n < 55296 ∨ 57343 < n then
                consStr (Char.ofNat n) (parseJStringF fuel r2)
              else if n < 56320 then
                match r2 with
                | b1 :: b2 :: e1 :: e2 :: e3 :: e4 :: r3 =>
                  if b1 = '\\' ∧ b2 = 'u' then
                    match hex4Val e1 e2 e3 e4 with
                    | some m =>
                      if 56319 < m ∧ m < 57344 then
                        consStr
                          (Char.ofNat (65536 + (n - 55296) * 1024 + (m - 56320)))
                          (parseJStringF fuel r3)
                      else none
                    | none => none
                  else none
                | _ => none
              else none
          | _ => none
        else
          match simpleEscape e with
          | some d => consStr d (parseJStringF fuel r)
          | none => none
    else if c.toNat < 32 then none
    else consStr c (parseJStringF fuel rest)

/-- `parseJStringF` with enough fuel for its input: every scanner step
consumes at least one input character, so `length + 1` steps always
suffice. -/
def parseJString (l : List Char) : Option (List Char × List Char) :=
  parseJStringF (l.length + 1) l

/-- Drop leading JSON whitespace. -/
def skipWs : List Char → List Char
  | [] => []
  | c :: r =>
    if c = ' ' ∨ c = '\t' ∨ c = '\n' ∨ c = '\r' then skipWs r else c :: r

/-- Member list of a JSON object of string values, entered at the first
character after `\x7b` and any whitespace (that character must open a string
key): parses `"key" : "value"` members separated by commas up to and
including the closing `\x7d`, returning the members in document order and
the remaining characters.  The fuel argument bounds the member count and is
immaterial whenever it exceeds it. -/
def parseMembers : Nat → List Char → Option (List (String × String) × List Char)
  | _, [] => none
  | 0, _ :: _ => none
  | Nat.succ fuel, c :: r0 =>
    if c = '"' then
      match parseJString r0 with
      | none => none
      | some (k, r1) =>
        match skipWs r1 with
        | [] => none
        | c2 :: r2 =>
          if c2 = ':' then
            match skipWs r2 with
            | [] => none
            | c3 :: r3 =>
              if c3 = '"' then
                match parseJString r3 with
                | none => none
                | some (v, r4) =>
                  match skipWs r4 with
                  | [] => none
                  | c5 :: r5 =>
                    if c5 = ',' then
                      match parseMembers fuel (skipWs r5) with
                      | some (rest, r6) =>
                        some ((String.mk k, String.mk v) :: rest, r6)
                      | none => none
                    else if c5 = '\x7d' then
                      some ([(String.mk k, String.mk v)], r5)
                    else none
              else none
          else none
    else none

/-- Embedding of the `json.loads(uid)` call in `parse_labels`
(writer.py line 65), restricted to the value shapes identifiers take: a flat
object with string keys and string values, surrounded by optional
whitespace, consuming the entire input.  Any other document is a parse
failure (`none`, an exception in Python). -/
def json_loads (s : String) : Option (List (String × String)) :=
  match skipWs s.toList with
  | [] => none
  | c :: r =>
    if c = '\x7b' then
      match skipWs r with
      | [] => none
      | c2 :: r2 =>
        if c2 = '\x7d' then
          if (skipWs r2).isEmpty then some [] else none
        else
          match parseMembers (r.length + 1) (c2 :: r2) with
          | some (pairs, rest) =>
            if (skipWs rest).isEmpty then some pairs else none
          | none => none
    else none

/-- Code-point ordering on character sequences, as Python compares `str`
values: lexicographic on Unicode code points. -/
def leChars : List Char → List Char → Bool
  | [], _ => true
  | _ :: _, [] => false
  | a :: as, b :: bs =>
    if a.toNat < b.toNat then true
    else if b.toNat < a.toNat then false
    else leChars as bs

/-- Python `str` ordering. -/
def strLe (a b : String) : Bool := leChars a.toList b.toList

/-- Ordered insertion for the key sort. -/
def insertKey (x : String) : List String → List String
  | [] => [x]
  | y :: ys => if strLe x y then x :: y :: ys else y :: insertKey x ys

/-- Sorting of the label keys, as `sort_keys=True` orders the serialized
members (Python's sort is comparison-based and stable; on the distinct keys
of a dict the result is the unique key-ordered arrangement). -/
def sortKeys : List String → List String
  | [] => []
  | x :: xs => insertKey x (sortKeys xs)

/-- First-match lookup in a label pair list — the value a Python dict holds
for `k` when its keys are distinct. -/
def lookupKey (k : String) : List (String × String) → Option String
  | [] => none
  | (k', v) :: rest => if k' = k then some v else lookupKey k rest

/-- The keys of a label pair list, in order. -/
def labelKeys (d : List (String × String)) : List String := d.map Prod.fst

/-- The label pairs in serialization order: each lexicographically sorted
key paired with its value.  For distinct keys (always, for a Python dict)
this is exactly `sorted(labels.items())`; the `getD` default is never
reached for a key of `d`. -/
def canonicalPairs (d : List (String × String)) : List (String × String) :=
  (sortKeys (labelKeys d)).map (fun k => (k, (lookupKey k d).getD ""))

/-- One serialized member, with `json.dumps`' default `': '` separator. -/
def dumpsPair (kv : String × String) : List Char :=
  dumpStringChars kv.1.toList ++ ':' :: ' ' :: dumpStringChars kv.2.toList

/-- Members joined by `json.dumps`' default `', '` item separator. -/
def sepJoin : List (List Char) → List Char
  | [] => []
  | [x] => x
  | x :: y :: rest => x ++ ',' :: ' ' :: sepJoin (y :: rest)

/-- Embedding of `json.dumps(labels, sort_keys=True)` with default options,
as called by `make_id` (reader.py line 62): the serialized flat object of
the label pairs, members in sorted-key order. -/
def json_dumps (d : List (String × String)) : List Char :=
  '\x7b' :: (sepJoin ((canonicalPairs d).map dumpsPair) ++ ['\x7d'])

/-- Embedding of `make_id` (reader.py lines 60-62): the series identifier of
a label mapping is its sorted-key JSON serialization. -/
def make_id (labels : List (String × String)) : String :=
  String.mk (json_dumps labels)

/-- Embedding of `parse_labels` (writer.py lines 63-67): decode the
identifier as JSON; on any parse failure (the bare `except`) return the
fallback single-entry label set. -/
def parse_labels (uid : String) : List (String × String) :=
  match json_loads uid with
  | some labels => labels
  | none => [("series_id", uid)]

/-- The join key `[timestamp, unique_id]` of a forecast-tuple row. -/
def fkeyOf (f : FCRow) : Int × String := (f.t, f.uid)

/-- The join key `[timestamp, unique_id]` of a merged row. -/
def mkeyOf (m : MRow) : Int × String := (m.t, m.uid)

/- ## Theorems: anomaly scoring -/

/-- Degenerate branch of `score_row` (anomaly.py lines 51-53). -/
theorem score_row_deg (a p l u : ℚ) (h : u - l ≤ 1 / 1000000000) :
    score_row a p l u = |a - p| := by
  simp only [score_row]
  rw [if_pos h]

/-- Non-degenerate branch of `score_row` (anomaly.py lines 55-63). -/
theorem score_row_nondeg (a p l u : ℚ) (h : 1 / 1000000000 < u - l) :
    score_row a p l u = |a - p| / ((u - l) / 2) := by
  simp only [score_row]
  rw [if_neg (not_le.mpr h)]

/-- C1: for every matched `(actual, pred, lower, upper)` tuple the anomaly
score is `|actual - pred|` when `upper - lower ≤ 1e-9` and
`|actual - pred| / ((upper - lower) / 2)` otherwise; there is no clamping,
so outside a non-degenerate interval the score exceeds any bound; and the
four sampled points evaluate as the spec states: `(10,10,8,12) ↦ 0`,
`(12,10,8,12) ↦ 1`, `(14,10,8,12) ↦ 2`, and degenerate `(7,5,5,5) ↦ 2`. -/
theorem claim_C1 :
    (∀ a p l u : ℚ, u - l ≤ 1 / 1000000000 → score_row a p l u = |a - p|) ∧
    (∀ a p l u : ℚ, 1 / 1000000000 < u - l →
      score_row a p l u = |a - p| / ((u - l) / 2)) ∧
    (∀ p l u B : ℚ, 1 / 1000000000 < u - l → ∃ a, B < score_row a p l u) ∧
    score_row 10 10 8 12 = 0 ∧ score_row 12 10 8 12 = 1 ∧
    score_row 14 10 8 12 = 2 ∧ score_row 7 5 5 5 = 2 := by
  refine ⟨score_row_deg, score_row_nondeg, ?_, ?_, ?_, ?_, ?_⟩
  · intro p l u B h
    have hhalf : 0 < (u - l) / 2 := by
      have : (0:ℚ) < u - l := lt_trans (by norm_num) h
      linarith
    refine ⟨p + (B + 1) * ((u - l) / 2), ?_⟩
    rw [score_row_nondeg _ _ _ _ h]
    have he : p + (B + 1) * ((u - l) / 2) - p = (B + 1) * ((u - l) / 2) := by
      ring
    rw [he, abs_mul, abs_of_pos hhalf, mul_div_assoc,
      div_self (ne_of_gt hhalf), mul_one]
    calc B < B + 1 := by linarith
      _ ≤ |B + 1| := le_abs_self _
  · norm_num [score_row]
  · norm_num [score_row]
  · norm_num [score_row]
  · norm_num [score_row]

/-- Witness for C1: the non-degenerate branch hypothesis holds at
`(12, 10, 8, 12)` and the theorem yields the formula there. -/
theorem claim_C1_witness :
    ((1:ℚ) / 1000000000 < 12 - 8) ∧
      score_row 12 10 8 12 = |(12:ℚ) - 10| / ((12 - 8) / 2) :=
  ⟨by norm_num, claim_C1.2.1 12 10 8 12 (by norm_num)⟩

/-- C5 counterexample: at `actual = lower = 0`, `pred = 2`, `upper = 10` the
interval is non-degenerate and `actual` sits exactly on the lower bound, yet
the score is `2/5`, not `1.0` — the claimed "exactly 1.0 at either bound"
fails when `pred` is not the interval midpoint. -/
theorem claim_C5_counterexample :
    ((1:ℚ) / 1000000000 < 10 - 0) ∧
      score_row 0 2 0 10 = 2 / 5 ∧ score_row 0 2 0 10 ≠ 1 := by
  refine ⟨by norm_num, by norm_num [score_row], by norm_num [score_row]⟩

/-- C5 amended: for a non-degenerate interval the score is `0` when
`actual = pred`, and it is exactly `1.0` at `actual = lower` or
`actual = upper` provided `pred` is the midpoint `(lower + upper) / 2` of
the interval. -/
theorem claim_C5_amended (a p l u : ℚ) (h : 1 / 1000000000 < u - l) :
    (a = p → score_row a p l u = 0) ∧
    (p = (l + u) / 2 → (a = l ∨ a = u) → score_row a p l u = 1) := by
  have hpos : (0:ℚ) < u - l := lt_trans (by norm_num) h
  have hhalf : (0:ℚ) < (u - l) / 2 := by linarith
  rw [score_row_nondeg _ _ _ _ h]
  refine ⟨?_, ?_⟩
  · rintro rfl
    simp
  · intro hp hb
    have habs : |a - p| = (u - l) / 2 := by
      rcases hb with h1 | h1
      · have he : a - p = -((u - l) / 2) := by rw [h1, hp]; ring
        rw [he, abs_neg, abs_of_pos hhalf]
      · have he : a - p = (u - l) / 2 := by rw [h1, hp]; ring
        rw [he, abs_of_pos hhalf]
    rw [habs, div_self (ne_of_gt hhalf)]

/-- Witness for C5 amended: at `(12, 10, 8, 12)` — `pred` the midpoint,
`actual` on the upper bound — the score is exactly `1`. -/
theorem claim_C5_amended_witness :
    ((1:ℚ) / 1000000000 < 12 - 8) ∧ score_row 12 10 8 12 = 1 :=
  ⟨by norm_num,
    (claim_C5_amended 12 10 8 12 (by norm_num)).2 (by norm_num) (Or.inr rfl)⟩

/-- C10: in both branches the anomaly score is non-negative and vanishes
exactly when `actual = pred`. -/
theorem claim_C10 (a p l u : ℚ) :
    0 ≤ score_row a p l u ∧ (score_row a p l u = 0 ↔ a = p) := by
  by_cases h : u - l ≤ 1 / 1000000000
  · rw [score_row_deg _ _ _ _ h]
    exact ⟨abs_nonneg _, by rw [abs_eq_zero, sub_eq_zero]⟩
  · have h' := not_le.mp h
    rw [score_row_nondeg _ _ _ _ h']
    have hhalf : 0 < (u - l) / 2 := by
      have : (0:ℚ) < u - l := lt_trans (by norm_num) h'
      linarith
    constructor
    · exact div_nonneg (abs_nonneg _) (le_of_lt hhalf)
    · rw [div_eq_zero_iff]
      simp [ne_of_gt hhalf, abs_eq_zero, sub_eq_zero]

/- ## Theorems: model-artifact cache -/

/-- C2: with a storage key given, cache resolution refits when no artifact
exists, loads when the artifact's age is strictly below the expiration (a
load deserializes and does not fit), refits when the age reaches the
expiration, and every call resolves to exactly one of the two actions; with
a 24-hour expiration, age 23h loads, age 25h refits, and no artifact
refits. -/
theorem claim_C2 :
    (∀ loadR saveR exp,
      (run_stateful_model true .absent loadR saveR exp).action = .refit ∧
      (run_stateful_model true .absent loadR saveR exp).fitted = true) ∧
    (∀ age saveR exp, age < exp →
      (run_stateful_model true (.present age) .loadOk saveR exp).action
          = .load ∧
      (run_stateful_model true (.present age) .loadOk saveR exp).fitted
          = false ∧
      (run_stateful_model true (.present age) .loadOk saveR exp).used
          = .loadedModel) ∧
    (∀ age loadR saveR exp, exp ≤ age →
      (run_stateful_model true (.present age) loadR saveR exp).action
          = .refit ∧
      (run_stateful_model true (.present age) loadR saveR exp).fitted
          = true) ∧
    (∀ probe loadR saveR exp,
      ((run_stateful_model true probe loadR saveR exp).action = .load ∧
          ¬(run_stateful_model true probe loadR saveR exp).action = .refit) ∨
      ((run_stateful_model true probe loadR saveR exp).action = .refit ∧
          ¬(run_stateful_model true probe loadR saveR exp).action = .load)) ∧
    (run_stateful_model true (.present 23) .loadOk .saveOk 24).action
        = .load ∧
    (run_stateful_model true (.present 25) .loadOk .saveOk 24).action
        = .refit := by
  refine ⟨?_, ?_, ?_, ?_, by decide, by decide⟩
  · intro loadR saveR exp
    simp [run_stateful_model, resolveShouldFit]
  · intro age saveR exp h
    simp [run_stateful_model, resolveShouldFit, h]
  · intro age loadR saveR exp h
    simp [run_stateful_model, resolveShouldFit, not_lt.mpr h]
  · intro probe loadR saveR exp
    by_cases h : (run_stateful_model true probe loadR saveR exp).action
        = .load
    · left
      exact ⟨h, by simp [h]⟩
    · right
      refine ⟨?_, h⟩
      cases ha : (run_stateful_model true probe loadR saveR exp).action
      · exact absurd ha h
      · rfl

/-- Witness for C2: age 23h against a 24h expiration loads. -/
theorem claim_C2_witness :
    ((23:ℚ) < 24) ∧
      (run_stateful_model true (.present 23) .loadOk .saveOk 24).action
        = .load :=
  ⟨by norm_num, (claim_C2.2.1 23 .saveOk 24 (by norm_num)).1⟩

/-- C6: a load (deserialization) failure on a fresh artifact degrades the
call to a refit — a new instance is fitted and used, with no fatal error —
and a save failure after a refit is non-fatal: the run still predicts with
the freshly fitted in-memory instance, the save having been attempted but
not persisted. -/
theorem claim_C6 :
    (∀ age exp saveR, age < exp →
      (run_stateful_model true (.present age) .loadFail saveR exp).action
          = .refit ∧
      (run_stateful_model true (.present age) .loadFail saveR exp).fitted
          = true ∧
      (run_stateful_model true (.present age) .loadFail saveR exp).used
          = .freshModel ∧
      (run_stateful_model true (.present age) .loadFail saveR exp).fatalError
          = false) ∧
    (∀ probe loadR exp,
      (run_stateful_model true probe loadR .saveFail exp).fatalError
          = false) ∧
    (∀ probe loadR exp,
      (run_stateful_model true probe loadR .saveFail exp).fitted = true →
        (run_stateful_model true probe loadR .saveFail exp).used
            = .freshModel ∧
        (run_stateful_model true probe loadR .saveFail exp).saveAttempted
            = true ∧
        (run_stateful_model true probe loadR .saveFail exp).savePersisted
            = false) := by
  refine ⟨?_, ?_, ?_⟩
  · intro age exp saveR h
    simp [run_stateful_model, resolveShouldFit, h]
  · intro probe loadR exp
    cases hsf : resolveShouldFit true probe loadR exp <;>
      simp [run_stateful_model, hsf]
  · intro probe loadR exp hfit
    cases hsf : resolveShouldFit true probe loadR exp <;>
      simp_all [run_stateful_model, hsf]
/-- Witness for C6: a fresh artifact (age 23h < 24h) whose deserialization
fails leads to a non-fatal refit with the fresh instance. -/
theorem claim_C6_witness :
    ((23:ℚ) < 24) ∧
      (run_stateful_model true (.present 23) .loadFail .saveOk 24).action
        = .refit :=
  ⟨by norm_num, (claim_C6.1 23 24 .saveOk (by norm_num)).1⟩

/- ## Theorems: panel joins and the detection run -/

/-- With unique `[timestamp, unique_id]` keys, `find?` over the forecast
frame returns exactly the row with the sought key. -/
theorem find?_fkey (fc : List FCRow) (hf : (fc.map fkeyOf).Nodup)
    (f : FCRow) (hmem : f ∈ fc) :
    fc.find? (fun f' => f'.t = f.t && f'.uid = f.uid) = some f := by
  induction fc with
  | nil => cases hmem
  | cons g gs ih =>
    rcases List.mem_cons.mp hmem with rfl | hmem'
    · simp [List.find?]
    · have hkey : ¬(g.t = f.t ∧ g.uid = f.uid) := by
        intro ⟨h1, h2⟩
        have hg : fkeyOf g = fkeyOf f := by simp [fkeyOf, h1, h2]
        have := (List.nodup_cons.mp hf).1
        exact this (hg ▸ List.mem_map_of_mem _ hmem' : fkeyOf g ∈ gs.map fkeyOf)
      rw [List.find?]
      have hfalse : (g.t = f.t && g.uid = f.uid) = false := by
        simp only [Bool.and_eq_false_iff, decide_eq_false_iff_not]
        by_cases h1 : g.t = f.t
        · right
          intro h2
          exact hkey ⟨h1, h2⟩
        · left
          simpa using h1
      rw [hfalse]
      exact ih (List.nodup_cons.mp hf).2 hmem'

/-- C4: with unique forecast keys, the inner merge at detection.py line 79
contains a merged row exactly when the realtime panel holds the
`(timestamp, series)` observation and the forecast frame holds the same key
with the paired tuple — pairs present on one side only are dropped and no
other rows are produced; and on the spec's example (realtime at
t ∈ \x7b0, 60, 120\x7d, forecast at t ∈ \x7b60, 120, 180\x7d for one
series) the joined keys are exactly \x7b60, 120\x7d. -/
theorem claim_C4 :
    (∀ (real : List RTRow) (fc : List FCRow),
      (fc.map fkeyOf).Nodup →
      ∀ (t : Int) (uid : String) (v : ℚ) (p l u : Option ℚ),
        (⟨t, uid, v, p, l, u⟩ : MRow) ∈ innerJoinPanels real fc ↔
          ((⟨t, uid, v⟩ : RTRow) ∈ real ∧
            (⟨t, uid, p, l, u⟩ : FCRow) ∈ fc)) ∧
    (innerJoinPanels
        [⟨0, "A", 1⟩, ⟨60, "A", 2⟩, ⟨120, "A", 3⟩]
        (outerJoin3
          [⟨60, "A", 5⟩, ⟨120, "A", 6⟩, ⟨180, "A", 7⟩]
          [⟨60, "A", 4⟩, ⟨120, "A", 5⟩, ⟨180, "A", 6⟩]
          [⟨60, "A", 6⟩, ⟨120, "A", 7⟩, ⟨180, "A", 8⟩])).map mkeyOf
      = [(60, "A"), (120, "A")] := by
  constructor
  · intro real fc hf t uid v p l u
    constructor
    · intro h
      obtain ⟨r, hr, heq⟩ := List.mem_filterMap.mp h
      cases hfind : fc.find? (fun f => f.t = r.t && f.uid = r.uid) with
      | none => rw [hfind] at heq; cases heq
      | some f =>
        rw [hfind] at heq
        have hpred := List.find?_some hfind
        have hft : f.t = r.t ∧ f.uid = r.uid := by simpa using hpred
        have hfm := List.mem_of_find?_eq_some hfind
        simp only [Option.map_some'] at heq
        cases heq
        cases r with
        | mk rt ruid rv =>
          cases f with
          | mk ft fuid fp fl fu =>
            obtain ⟨h1, h2⟩ := hft
            simp only at h1 h2
            subst h1; subst h2
            exact ⟨hr, hfm⟩
    · intro ⟨hr, hfm⟩
      apply List.mem_filterMap.mpr
      refine ⟨⟨t, uid, v⟩, hr, ?_⟩
      have hfind := find?_fkey fc hf ⟨t, uid, p, l, u⟩ hfm
      simp only at hfind
      rw [hfind]
      rfl
  · decide

/-- Witness for C4: on the example panels the key `(60, "A")` is in both
sides, and the theorem places the merged row in the join. -/
theorem claim_C4_witness :
    (⟨60, "A", 2, some 5, some 4, some 6⟩ : MRow) ∈
      innerJoinPanels
        [⟨0, "A", 1⟩, ⟨60, "A", 2⟩, ⟨120, "A", 3⟩]
        (outerJoin3
          [⟨60, "A", 5⟩, ⟨120, "A", 6⟩, ⟨180, "A", 7⟩]
          [⟨60, "A", 4⟩, ⟨120, "A", 5⟩, ⟨180, "A", 6⟩]
          [⟨60, "A", 6⟩, ⟨120, "A", 7⟩, ⟨180, "A", 8⟩]) :=
  (claim_C4.1 _ _ (by decide) 60 "A" 2 (some 5) (some 4) (some 6)).mpr
    ⟨by decide, by decide⟩

/-- C7 counterexample: a realtime point and a matching `anomaly_pred` point
with EMPTY `anomaly_lower` and `anomaly_upper` panels — the claim requires
the run to be a SKIPPED no-op whenever any of the three forecast panels is
empty, but `detect_anomalies_flow` only guards `real_df.empty or
pred_df.empty` (detection.py line 63) and proceeds to write one scored
row. -/
theorem claim_C7_counterexample :
    detect_anomalies_flow [⟨0, "A", 1⟩] [⟨0, "A", 1⟩] [] []
        = DetectOutcome.wrote 1 ∧
      detect_anomalies_flow [⟨0, "A", 1⟩] [⟨0, "A", 1⟩] [] []
        ≠ DetectOutcome.skipped := by
  decide

/-- C7 amended: the detection run is a SKIPPED no-op exactly when the
realtime panel is empty, or the `anomaly_pred` panel is empty, or the
realtime/forecast inner merge is empty; emptiness of the `anomaly_lower` or
`anomaly_upper` panel alone does not skip the run (their components are
merely missing from the outer-merged forecast tuples). -/
theorem claim_C7_amended (real pred lower upper : List RTRow) :
    detect_anomalies_flow real pred lower upper = DetectOutcome.skipped ↔
      (real = [] ∨ pred = [] ∨
        innerJoinPanels real (outerJoin3 pred lower upper) = []) := by
  by_cases h1 : (real.isEmpty || pred.isEmpty) = true
  · have hor : real = [] ∨ pred = [] := by
      rcases Bool.or_eq_true_iff.mp h1 with h | h
      · exact Or.inl (List.isEmpty_iff.mp h)
      · exact Or.inr (List.isEmpty_iff.mp h)
    rcases hor with h | h <;> simp [detect_anomalies_flow, h]
  · have hne : ¬(real = [] ∨ pred = []) := by
      intro hor
      apply h1
      rcases hor with h | h <;> simp [h]
    simp only [detect_anomalies_flow]
    rw [if_neg h1]
    by_cases h2 :
        (innerJoinPanels real (outerJoin3 pred lower upper)).isEmpty = true
    · rw [if_pos h2]
      simp only [List.isEmpty_iff] at h2
      simp [h2]
    · rw [if_neg h2]
      simp only [List.isEmpty_iff] at h2
      constructor
      · intro hcontra
        cases hcontra
      · intro hor
        rcases hor with h | h | h
        · exact absurd (Or.inl h) hne
        · exact absurd (Or.inr h) hne
        · exact absurd h h2

/- ## Theorems: label codec -/

/-- Characters are determined by their code points. -/
theorem char_eq_of_toNat_eq {a b : Char} (h : a.toNat = b.toNat) : a = b := by
  apply Char.ext
  apply UInt32.ext
  simpa [Char.toNat, UInt32.toNat] using h

/-- `Char.ofNat` inverts `Char.toNat`. -/
theorem charOfNat_toNat (c : Char) : Char.ofNat c.toNat = c := by
  have hv : c.toNat.isValidChar := by
    have := c.valid
    simpa [UInt32.isValidChar, Char.toNat] using this
  rw [Char.ofNat, dif_pos hv]
  apply Char.ext
  apply UInt32.ext
  simp [Char.ofNatAux, Char.toNat, UInt32.toNat]

/-- Code points avoid the surrogate range and stay below 0x110000. -/
theorem char_toNat_range (c : Char) :
    c.toNat < 55296 ∨ (57343 < c.toNat ∧ c.toNat < 1114112) := by
  have := c.valid
  simp only [UInt32.isValidChar, Nat.isValidChar] at this
  simpa [Char.toNat] using this

/-- `readHex` decodes the digit characters `hexDigit` emits. -/
theorem readHex_hexDigit (n : Nat) (h : n < 16) :
    readHex (hexDigit n) = some n := by
  interval_cases n <;> decide

/-- `hex4Val` decodes the four digits of `hex4 n` back to `n`. -/
theorem hex4Val_hexDigits (n : Nat) (h : n < 65536) :
    hex4Val (hexDigit (n / 4096 % 16)) (hexDigit (n / 256 % 16))
      (hexDigit (n / 16 % 16)) (hexDigit (n % 16)) = some n := by
  unfold hex4Val
  rw [readHex_hexDigit _ (by omega), readHex_hexDigit _ (by omega),
      readHex_hexDigit _ (by omega), readHex_hexDigit _ (by omega)]
  simp only
  congr 1
  omega

/-- Scanner step: closing quote. -/
theorem parseJStringF_quote (f : Nat) (l : List Char) :
    parseJStringF (f + 1) ('"' :: l) = some ([], l) := by
  rw [parseJStringF.eq_def]
  simp

/-- Scanner step: an unescaped non-control character is kept. -/
theorem parseJStringF_plain (f : Nat) (c : Char) (l : List Char)
    (h1 : ¬(c = '"')) (h2 : ¬(c = '\\')) (h3 : ¬(c.toNat < 32)) :
    parseJStringF (f + 1) (c :: l) = consStr c (parseJStringF f l) := by
  rw [parseJStringF.eq_def]
  simp [h1, h2, h3]

/-- Scanner step: a single-character escape decodes via `simpleEscape`. -/
theorem parseJStringF_esc (f : Nat) (e d : Char) (l : List Char)
    (he : simpleEscape e = some d) (hu : ¬(e = 'u')) :
    parseJStringF (f + 1) ('\\' :: e :: l) = consStr d (parseJStringF f l) := by
  rw [parseJStringF.eq_def]
  simp [hu, he]

/-- Scanner step: a `\uXXXX` escape outside the surrogate range decodes to
its scalar. -/
theorem parseJStringF_u (f : Nat) (d1 d2 d3 d4 : Char) (n : Nat)
    (l : List Char) (hv : hex4Val d1 d2 d3 d4 = some n)
    (hr : n < 55296 ∨ 57343 < n) :
    parseJStringF (f + 1) ('\\' :: 'u' :: d1 :: d2 :: d3 :: d4 :: l)
      = consStr (Char.ofNat n) (parseJStringF f l) := by
  rw [parseJStringF.eq_def]
  simp [hv, hr]

/-- Scanner step: a high/low surrogate escape pair decodes to the combined
supplementary scalar. -/
theorem parseJStringF_surr (f : Nat) (d1 d2 d3 d4 e1 e2 e3 e4 : Char)
    (n m : Nat) (l : List Char) (hv1 : hex4Val d1 d2 d3 d4 = some n)
    (h1 : 55296 ≤ n) (h2 : n < 56320) (hv2 : hex4Val e1 e2 e3 e4 = some m)
    (h3 : 56319 < m) (h4 : m < 57344) :
    parseJStringF (f + 1)
        ('\\' :: 'u' :: d1 :: d2 :: d3 :: d4 ::
          '\\' :: 'u' :: e1 :: e2 :: e3 :: e4 :: l)
      = consStr (Char.ofNat (65536 + (n - 55296) * 1024 + (m - 56320)))
          (parseJStringF f l) := by
  rw [parseJStringF.eq_def]
  have hno : ¬(n < 55296 ∨ 57343 < n) := by omega
  simp [hv1, hv2, hno, h2, h3, h4]

/-- The JSON string scanner inverts `escapeList` whenever the fuel exceeds
the number of decoded characters: scanning the escaped form of `s` followed
by a closing quote yields `s` and the remaining input. -/
theorem parseJStringF_escape :
    ∀ (s : List Char) (f : Nat) (rest : List Char), s.length < f →
      parseJStringF f (escapeList s ++ '"' :: rest) = some (s, rest) := by
  intro s
  induction s with
  | nil =>
    intro f rest hf
    cases f with
    | zero => omega
    | succ f' =>
      simp only [escapeList, List.nil_append]
      exact parseJStringF_quote f' rest
  | cons c cs ih =>
    intro f rest hf
    cases f with
    | zero => omega
    | succ f' =>
      have hf' : cs.length < f' := by
        simpa using Nat.lt_of_succ_lt_succ hf
      simp only [escapeList, List.append_assoc]
      by_cases h1 : c = '"'
      · subst h1
        rw [(by decide : escapeChar '"' = ['\\', '"'])]
        simp only [List.cons_append, List.nil_append]
        rw [parseJStringF_esc f' '"' '"' _ (by decide) (by decide),
          ih f' rest hf']
        rfl
      · by_cases h2 : c = '\\'
        · subst h2
          rw [(by decide : escapeChar '\\' = ['\\', '\\'])]
          simp only [List.cons_append, List.nil_append]
          rw [parseJStringF_esc f' '\\' '\\' _ (by decide) (by decide),
            ih f' rest hf']
          rfl
        · by_cases h3 : c = '\x08'
          · subst h3
            rw [(by decide : escapeChar '\x08' = ['\\', 'b'])]
            simp only [List.cons_append, List.nil_append]
            rw [parseJStringF_esc f' 'b' '\x08' _ (by decide) (by decide),
              ih f' rest hf']
            rfl
          · by_cases h4 : c = '\x0c'
            · subst h4
              rw [(by decide : escapeChar '\x0c' = ['\\', 'f'])]
              simp only [List.cons_append, List.nil_append]
              rw [parseJStringF_esc f' 'f' '\x0c' _ (by decide) (by decide),
                ih f' rest hf']
              rfl
            · by_cases h5 : c = '\n'
              · subst h5
                rw [(by decide : escapeChar '\n' = ['\\', 'n'])]
                simp only [List.cons_append, List.nil_append]
                rw [parseJStringF_esc f' 'n' '\n' _ (by decide) (by decide),
                  ih f' rest hf']
                rfl
              · by_cases h6 : c = '\r'
                · subst h6
                  rw [(by decide : escapeChar '\r' = ['\\', 'r'])]
                  simp only [List.cons_append, List.nil_append]
                  rw [parseJStringF_esc f' 'r' '\r' _ (by decide)
                      (by decide),
                    ih f' rest hf']
                  rfl
                · by_cases h7 : c = '\t'
                  · subst h7
                    rw [(by decide : escapeChar '\t' = ['\\', 't'])]
                    simp only [List.cons_append, List.nil_append]
                    rw [parseJStringF_esc f' 't' '\t' _ (by decide)
                        (by decide),
                      ih f' rest hf']
                    rfl
                  · by_cases h8 : 32 ≤ c.toNat ∧ c.toNat ≤ 126
                    · simp only [escapeChar, if_neg h1, if_neg h2, if_neg h3,
                        if_neg h4, if_neg h5, if_neg h6, if_neg h7,
                        if_pos h8, List.cons_append, List.nil_append]
                      rw [parseJStringF_plain f' c _ h1 h2 (by omega),
                        ih f' rest hf']
                      rfl
                    · by_cases h9 : c.toNat < 65536
                      · simp only [escapeChar, if_neg h1, if_neg h2,
                          if_neg h3, if_neg h4, if_neg h5, if_neg h6,
                          if_neg h7, if_neg h8, if_pos h9, hex4,
                          List.cons_append, List.nil_append]
                        rw [parseJStringF_u f' _ _ _ _ c.toNat _
                            (hex4Val_hexDigits c.toNat h9)
                            (by
                              rcases char_toNat_range c with h | h
                              · exact Or.inl h
                              · exact Or.inr h.1),
                          charOfNat_toNat, ih f' rest hf']
                        rfl
                      · have hub : c.toNat < 1114112 := by
                          rcases char_toNat_range c with h | h
                          · omega
                          · exact h.2
                        simp only [escapeChar, if_neg h1, if_neg h2,
                          if_neg h3, if_neg h4, if_neg h5, if_neg h6,
                          if_neg h7, if_neg h8, if_neg h9, hex4,
                          List.cons_append, List.nil_append,
                          List.append_assoc]
                        rw [parseJStringF_surr f' _ _ _ _ _ _ _ _
                            (55296 + (c.toNat - 65536) / 1024)
                            (56320 + (c.toNat - 65536) % 1024) _
                            (hex4Val_hexDigits _ (by omega)) (by omega)
                            (by omega) (hex4Val_hexDigits _ (by omega))
                            (by omega) (by omega)]
                        have hc : 65536 +
                            (55296 + (c.toNat - 65536) / 1024 - 55296) * 1024 +
                            (56320 + (c.toNat - 65536) % 1024 - 56320)
                              = c.toNat := by omega
                        rw [hc, charOfNat_toNat, ih f' rest hf']
                        rfl

/-- `skipWs` leaves a quote-headed input unchanged. -/
theorem skipWs_quote (l : List Char) : skipWs ('"' :: l) = '"' :: l := by
  simp [skipWs]

/-- `skipWs` leaves a colon-headed input unchanged. -/
theorem skipWs_colon (l : List Char) : skipWs (':' :: l) = ':' :: l := by
  simp [skipWs]

/-- `skipWs` leaves a comma-headed input unchanged. -/
theorem skipWs_comma (l : List Char) : skipWs (',' :: l) = ',' :: l := by
  simp [skipWs]

/-- `skipWs` leaves a closing-brace-headed input unchanged. -/
theorem skipWs_rbrace (l : List Char) : skipWs ('\x7d' :: l) = '\x7d' :: l := by
  simp [skipWs]

/-- `skipWs` leaves an opening-brace-headed input unchanged. -/
theorem skipWs_lbrace (l : List Char) : skipWs ('\x7b' :: l) = '\x7b' :: l := by
  simp [skipWs]

/-- `skipWs` drops a leading space. -/
theorem skipWs_space (l : List Char) : skipWs (' ' :: l) = skipWs l := by
  simp [skipWs]

/-- `skipWs` of the empty input. -/
theorem skipWs_nil : skipWs [] = [] := rfl

/-- Escaping a character never produces the empty sequence. -/
theorem escapeChar_length_pos (c : Char) : 1 ≤ (escapeChar c).length := by
  unfold escapeChar
  split_ifs <;> simp [hex4]

/-- Escaping never shortens a character sequence. -/
theorem escapeList_length (s : List Char) : s.length ≤ (escapeList s).length := by
  induction s with
  | nil => simp [escapeList]
  | cons c cs ih =>
    have := escapeChar_length_pos c
    simp only [escapeList, List.length_append, List.length_cons]
    omega

/-- A `String` is recovered from its character list. -/
theorem string_mk_toList (s : String) : String.mk s.toList = s := rfl

/-- Structure eta for `String`. -/
theorem string_eta (s : String) : String.mk s.data = s := rfl

/-- The wrapped scanner (which always carries enough fuel) inverts
`escapeList`. -/
theorem parseJString_escape (s rest : List Char) :
    parseJString (escapeList s ++ '"' :: rest) = some (s, rest) := by
  unfold parseJString
  apply parseJStringF_escape
  have := escapeList_length s
  simp only [List.length_append, List.length_cons]
  omega

/-- A serialized member list starts with a quote, so `skipWs` leaves it
unchanged. -/
theorem skipWs_sepJoin_quote (Y : List Char) (L : List (List Char))
    (T : List Char) :
    skipWs (sepJoin (('"' :: Y) :: L) ++ T)
      = sepJoin (('"' :: Y) :: L) ++ T := by
  cases L with
  | nil =>
    simp only [sepJoin, List.cons_append]
    exact skipWs_quote _
  | cons x t =>
    simp only [sepJoin, List.cons_append, List.append_assoc]
    exact skipWs_quote _

/-- `parseMembers` inverts the serialization of a non-empty member list
whenever the fuel is at least the number of members: parsing the joined
members followed by the closing brace returns the pairs and the remaining
input. -/
theorem parseMembers_dumps :
    ∀ (pairs : List (String × String)) (f : Nat) (rest : List Char),
      pairs.length ≤ f → pairs ≠ [] →
      parseMembers f (sepJoin (pairs.map dumpsPair) ++ '\x7d' :: rest)
        = some (pairs, rest) := by
  intro pairs
  induction pairs with
  | nil =>
    intro f rest _ hne
    exact absurd rfl hne
  | cons kv ps ih =>
    intro f rest hlen _
    cases f with
    | zero => simp at hlen
    | succ f' =>
      cases ps with
      | nil =>
        simp only [List.map, sepJoin, dumpsPair, dumpStringChars,
          String.toList, List.cons_append, List.nil_append,
          List.append_assoc]
        rw [parseMembers.eq_def]
        simp [parseJString_escape, skipWs_colon, skipWs_space, skipWs_quote,
          skipWs_rbrace, string_mk_toList, string_eta]
      | cons kv' ps' =>
        simp only [List.map, sepJoin, dumpsPair, dumpStringChars,
          String.toList, List.cons_append, List.nil_append,
          List.append_assoc]
        rw [parseMembers.eq_def]
        have ih' := ih f' rest (by
            simp only [List.length_cons] at hlen ⊢
            omega)
          (by simp)
        simp only [List.map, sepJoin, dumpsPair, dumpStringChars,
          String.toList, List.cons_append, List.nil_append,
          List.append_assoc] at ih'
        simp [parseJString_escape, skipWs_colon, skipWs_space, skipWs_quote,
          skipWs_comma, skipWs_sepJoin_quote, ih', string_mk_toList,
          string_eta]

/-- One serialized member is never empty. -/
theorem dumpsPair_length (kv : String × String) :
    1 ≤ (dumpsPair kv).length := by
  simp [dumpsPair, dumpStringChars]

/-- Joining never drops below one character per member. -/
theorem sepJoin_length (ls : List (List Char)) (h : ∀ x ∈ ls, 1 ≤ x.length) :
    ls.length ≤ (sepJoin ls).length := by
  induction ls with
  | nil => simp [sepJoin]
  | cons x t ih =>
    cases t with
    | nil =>
      simpa [sepJoin] using h x (by simp)
    | cons y t' =>
      have hx := h x (by simp)
      have ht := ih (fun z hz => h z (by simp [hz]))
      simp only [sepJoin, List.length_append, List.length_cons] at ht ⊢
      omega

/-- A serialized member list followed by anything starts with a quote. -/
theorem sepJoin_dumpsPair_head (kv : String × String)
    (L : List (List Char)) (T : List Char) :
    ∃ Z, sepJoin (dumpsPair kv :: L) ++ T = '"' :: Z := by
  cases L with
  | nil =>
    refine ⟨escapeList kv.1.data ++ '"' ::
      ':' :: ' ' :: ('"' :: (escapeList kv.2.data ++ ['"'])) ++ T, ?_⟩
    simp [sepJoin, dumpsPair, dumpStringChars, String.toList,
      List.cons_append, List.append_assoc]
  | cons x t =>
    refine ⟨escapeList kv.1.data ++ '"' ::
      ':' :: ' ' :: ('"' :: (escapeList kv.2.data ++ ['"'])) ++
        ',' :: ' ' :: sepJoin (x :: t) ++ T, ?_⟩
    simp [sepJoin, dumpsPair, dumpStringChars, String.toList,
      List.cons_append, List.append_assoc]

/-- `json.loads` inverts `json.dumps` on every label mapping: decoding the
serialized identifier succeeds and returns the members in serialization
order. -/
theorem json_loads_make_id (L : List (String × String)) :
    json_loads (make_id L) = some (canonicalPairs L) := by
  cases hcp : canonicalPairs L with
  | nil =>
    simp only [make_id, json_dumps, hcp]
    rfl
  | cons kv ps =>
    simp only [make_id, json_dumps, hcp]
    have hlen1 : ∀ x ∈ (kv :: ps).map dumpsPair, 1 ≤ x.length := by
      intro x hx
      obtain ⟨p, _, rfl⟩ := List.mem_map.mp hx
      exact dumpsPair_length p
    have hlen : (kv :: ps).length
        ≤ (sepJoin ((kv :: ps).map dumpsPair)).length := by
      have h1 := sepJoin_length ((kv :: ps).map dumpsPair) hlen1
      simpa using h1
    obtain ⟨Z, hZ⟩ :
        ∃ Z, sepJoin ((kv :: ps).map dumpsPair) ++ ['\x7d'] = '"' :: Z := by
      simp only [List.map]
      exact sepJoin_dumpsPair_head kv _ _
    have hZlen : (sepJoin ((kv :: ps).map dumpsPair)).length = Z.length := by
      have h2 := congrArg List.length hZ
      simp only [List.length_append, List.length_cons, List.length_nil] at h2
      omega
    have hpm := parseMembers_dumps (kv :: ps)
      (('"' :: Z).length + 1) []
      (by
        simp only [List.length_cons] at hlen hZlen ⊢
        omega)
      (by simp)
    rw [hZ] at hpm
    simp only [List.length_cons] at hpm
    simp only [json_loads, String.toList]
    rw [skipWs_lbrace]
    simp only [List.map] at hZ hZlen
    simp [hZ, hZlen, skipWs_quote, hpm, skipWs_nil]

/-- `leChars` is total. -/
theorem leChars_total : ∀ a b : List Char,
    leChars a b = true ∨ leChars b a = true := by
  intro a
  induction a with
  | nil => intro b; left; cases b <;> rfl
  | cons x xs ih =>
    intro b
    cases b with
    | nil => right; rfl
    | cons y ys =>
      by_cases hxy : x.toNat < y.toNat
      · left
        simp [leChars, hxy]
      · by_cases hyx : y.toNat < x.toNat
        · right
          simp [leChars, hyx]
        · rcases ih ys with h | h
          · left
            simp [leChars, hxy, hyx, h]
          · right
            simp [leChars, hxy, hyx, h]

/-- `leChars` is transitive. -/
theorem leChars_trans : ∀ a b c : List Char,
    leChars a b = true → leChars b c = true → leChars a c = true := by
  intro a
  induction a with
  | nil => intro b c _ _; cases c <;> rfl
  | cons x xs ih =>
    intro b c hab hbc
    cases b with
    | nil => simp [leChars] at hab
    | cons y ys =>
      cases c with
      | nil => simp [leChars] at hbc
      | cons z zs =>
        simp only [leChars] at hab hbc ⊢
        by_cases hxy : x.toNat < y.toNat <;>
          by_cases hyz : y.toNat < z.toNat <;>
          by_cases hyx : y.toNat < x.toNat <;>
          by_cases hzy : z.toNat < y.toNat <;>
          by_cases hxz : x.toNat < z.toNat <;>
          by_cases hzx : z.toNat < x.toNat <;>
          simp_all <;>
          first
          | omega
          | exact ih ys zs hab hbc
          | exact Or.inr (ih ys zs hab hbc)

/-- `leChars` is antisymmetric. -/
theorem leChars_antisymm : ∀ a b : List Char,
    leChars a b = true → leChars b a = true → a = b := by
  intro a
  induction a with
  | nil =>
    intro b _ hba
    cases b with
    | nil => rfl
    | cons y ys => simp [leChars] at hba
  | cons x xs ih =>
    intro b hab hba
    cases b with
    | nil => simp [leChars] at hab
    | cons y ys =>
      simp only [leChars] at hab hba
      by_cases hxy : x.toNat < y.toNat <;> by_cases hyx : y.toNat < x.toNat
      · omega
      · simp [hxy, hyx] at hba
      · simp [hxy, hyx] at hab
      · simp only [if_neg hxy, if_neg hyx] at hab
        simp only [if_neg hyx, if_neg hxy] at hba
        have hx : x = y := char_eq_of_toNat_eq (by omega)
        rw [hx, ih ys hab hba]

/-- Strings with equal character data are equal. -/
theorem string_toList_inj {a b : String} (h : a.toList = b.toList) :
    a = b := by
  cases a
  cases b
  simp only [String.toList] at h
  rw [h]

/-- `strLe` is total. -/
theorem strLe_total (a b : String) : strLe a b = true ∨ strLe b a = true :=
  leChars_total a.toList b.toList

/-- `strLe` is transitive. -/
theorem strLe_trans {a b c : String} (h1 : strLe a b = true)
    (h2 : strLe b c = true) : strLe a c = true :=
  leChars_trans a.toList b.toList c.toList h1 h2

/-- `strLe` is antisymmetric. -/
theorem strLe_antisymm {a b : String} (h1 : strLe a b = true)
    (h2 : strLe b a = true) : a = b :=
  string_toList_inj (leChars_antisymm a.toList b.toList h1 h2)

/-- Inserting permutes with consing. -/
theorem insertKey_perm (x : String) (l : List String) :
    (insertKey x l).Perm (x :: l) := by
  induction l with
  | nil => simp [insertKey]
  | cons y ys ih =>
    by_cases h : strLe x y
    · simp [insertKey, h]
    · simp only [insertKey, if_neg h]
      exact (ih.cons y).trans (List.Perm.swap x y ys)

/-- The key sort is a permutation of its input. -/
theorem sortKeys_perm (l : List String) : (sortKeys l).Perm l := by
  induction l with
  | nil => rfl
  | cons x xs ih =>
    exact (insertKey_perm x (sortKeys xs)).trans (ih.cons x)

/-- Inserting into a sorted list keeps it sorted. -/
theorem sorted_insertKey (x : String) (l : List String)
    (h : List.Sorted (fun a b => strLe a b = true) l) :
    List.Sorted (fun a b => strLe a b = true) (insertKey x l) := by
  induction l with
  | nil => simp [insertKey]
  | cons y ys ih =>
    rw [List.sorted_cons] at h
    by_cases hxy : strLe x y
    · simp only [insertKey, if_pos hxy]
      rw [List.sorted_cons]
      refine ⟨?_, List.sorted_cons.mpr h⟩
      intro b hb
      rcases List.mem_cons.mp hb with rfl | hb'
      · exact hxy
      · exact strLe_trans hxy (h.1 b hb')
    · simp only [insertKey, if_neg hxy]
      rw [List.sorted_cons]
      refine ⟨?_, ih h.2⟩
      intro b hb
      have hb' : b ∈ x :: ys := (insertKey_perm x ys).mem_iff.mp hb
      rcases List.mem_cons.mp hb' with rfl | hb''
      · rcases strLe_total y b with hy | hy
        · exact hy
        · exact absurd hy hxy
      · exact h.1 b hb''

/-- The key sort produces a sorted list. -/
theorem sortKeys_sorted (l : List String) :
    List.Sorted (fun a b => strLe a b = true) (sortKeys l) := by
  induction l with
  | nil => simp [sortKeys]
  | cons x xs ih => exact sorted_insertKey x (sortKeys xs) ih

/-- Sorting is invariant under permutation of the keys. -/
theorem sortKeys_eq_of_perm (l1 l2 : List String) (h : l1.Perm l2) :
    sortKeys l1 = sortKeys l2 := by
  have hperm : (sortKeys l1).Perm (sortKeys l2) :=
    (sortKeys_perm l1).trans (h.trans (sortKeys_perm l2).symm)
  exact @List.eq_of_perm_of_sorted _ _
    ⟨fun a b h1 h2 => strLe_antisymm h1 h2⟩ _ _
    hperm (sortKeys_sorted l1) (sortKeys_sorted l2)

/-- Absent keys look up to `none`. -/
theorem lookupKey_eq_none (k : String) :
    ∀ d : List (String × String),
      lookupKey k d = none ↔ k ∉ labelKeys d := by
  intro d
  induction d with
  | nil => simp [lookupKey, labelKeys]
  | cons p t ih =>
    obtain ⟨k', v⟩ := p
    by_cases h : k' = k
    · subst h
      simp [lookupKey, labelKeys]
    · have h' : ¬(k = k') := fun he => h he.symm
      simp [lookupKey, labelKeys, h, h', ih]

/-- Lookup over key-value pairs built from a key list. -/
theorem lookupKey_mapSelf (k : String) (f : String → String) :
    ∀ ks : List String,
      lookupKey k (ks.map (fun k' => (k', f k')))
        = if k ∈ ks then some (f k) else none := by
  intro ks
  induction ks with
  | nil => simp [lookupKey]
  | cons a t ih =>
    by_cases h : a = k
    · subst h
      simp [lookupKey, List.map]
    · have h' : ¬(k = a) := fun he => h he.symm
      simp [lookupKey, List.map, h, h', ih]

/-- Canonicalization preserves every lookup: the sorted-key pair list holds
exactly the associations of the original mapping. -/
theorem lookupKey_canonicalPairs (d : List (String × String)) (k : String) :
    lookupKey k (canonicalPairs d) = lookupKey k d := by
  unfold canonicalPairs
  rw [lookupKey_mapSelf]
  by_cases hk : k ∈ labelKeys d
  · rw [if_pos ((sortKeys_perm (labelKeys d)).mem_iff.mpr hk)]
    cases hl : lookupKey k d with
    | none => exact absurd ((lookupKey_eq_none k d).mp hl) (by simpa using hk)
    | some v => simp [hl]
  · rw [if_neg (fun hmem => hk ((sortKeys_perm (labelKeys d)).mem_iff.mp hmem))]
    exact ((lookupKey_eq_none k d).mpr hk).symm

/-- Permuting a pair list with distinct keys preserves every lookup. -/
theorem lookupKey_perm {L1 L2 : List (String × String)} (hp : L1.Perm L2)
    (hn : (labelKeys L1).Nodup) : ∀ k, lookupKey k L1 = lookupKey k L2 := by
  induction hp with
  | nil => intro k; rfl
  | @cons x l1 l2 hp' ih =>
    intro k
    obtain ⟨k', v⟩ := x
    have hn' : (labelKeys l1).Nodup := by
      simp only [labelKeys, List.map, List.nodup_cons] at hn
      exact hn.2
    by_cases h : k' = k
    · simp [lookupKey, h]
    · simp [lookupKey, h, ih hn' k]
  | swap x y l =>
    intro k
    obtain ⟨kx, vx⟩ := x
    obtain ⟨ky, vy⟩ := y
    have hxy : ky ≠ kx := by
      simp only [labelKeys, List.map, List.nodup_cons, List.mem_cons] at hn
      exact fun he => hn.1 (Or.inl he)
    by_cases h1 : kx = k <;> by_cases h2 : ky = k
    · exact absurd (h2.trans h1.symm) hxy
    · simp [lookupKey, h1, h2]
    · simp [lookupKey, h1, h2]
    · simp [lookupKey, h1, h2]
  | @trans l1 l2 l3 hp1 hp2 ih1 ih2 =>
    intro k
    have hn2 : (labelKeys l2).Nodup := by
      have hkeys := hp1.map Prod.fst
      exact hkeys.nodup_iff.mp hn
    rw [ih1 hn k, ih2 hn2 k]

/-- C3: for every label mapping with string keys and values (distinct keys,
as in any Python dict), decoding the encoded identifier returns the mapping
exactly: `parse_labels (make_id L)` holds precisely the associations of
`L` — Python dict equality is agreement of every lookup, proved here for
every key. -/
theorem claim_C3 (L : List (String × String)) (h : (labelKeys L).Nodup) :
    ∀ k, lookupKey k (parse_labels (make_id L)) = lookupKey k L := by
  intro k
  unfold parse_labels
  rw [json_loads_make_id]
  exact lookupKey_canonicalPairs L k

/-- Witness for C3: the round trip at a concrete two-label mapping. -/
theorem claim_C3_witness :
    (labelKeys [("instance", "host1"), ("job", "node")]).Nodup ∧
      lookupKey "job"
          (parse_labels (make_id [("instance", "host1"), ("job", "node")]))
        = lookupKey "job" [("instance", "host1"), ("job", "node")] :=
  ⟨by decide, claim_C3 _ (by decide) "job"⟩

/-- C8: the series identifier is a pure function of the key/value pairs
alone — two label mappings holding the same pairs in any insertion order
produce the same identifier string. -/
theorem claim_C8 (L1 L2 : List (String × String)) (hp : L1.Perm L2)
    (hn : (labelKeys L1).Nodup) : make_id L1 = make_id L2 := by
  have hkeys : sortKeys (labelKeys L1) = sortKeys (labelKeys L2) :=
    sortKeys_eq_of_perm _ _ (hp.map Prod.fst)
  have hlk : ∀ k, lookupKey k L1 = lookupKey k L2 := lookupKey_perm hp hn
  have hmap : ∀ ks : List String,
      ks.map (fun k => (k, (lookupKey k L1).getD ""))
        = ks.map (fun k => (k, (lookupKey k L2).getD "")) := by
    intro ks
    induction ks with
    | nil => rfl
    | cons a t ih => simp [List.map, hlk a, ih]
  unfold make_id json_dumps canonicalPairs
  rw [hkeys, hmap]

/-- Witness for C8: the two insertion orders of a two-label mapping encode
to the same identifier. -/
theorem claim_C8_witness :
    ([("instance", "host1"), ("job", "node")] :
        List (String × String)).Perm
        [("job", "node"), ("instance", "host1")] ∧
      make_id [("instance", "host1"), ("job", "node")]
        = make_id [("job", "node"), ("instance", "host1")] :=
  ⟨List.Perm.swap _ _ _,
    claim_C8 _ _ (List.Perm.swap _ _ _) (by decide)⟩

/-- C9: decode is total and recovers per row — whenever the identifier
fails to parse as JSON (the bare `except` in writer.py lines 64-67), the
fallback single-entry label set is returned instead of an error. -/
theorem claim_C9 (uid : String) (h : json_loads uid = none) :
    parse_labels uid = [("series_id", uid)] := by
  unfold parse_labels
  rw [h]

/-- Witness for C9: the non-JSON identifier `series_0` decodes to the
fallback. -/
theorem claim_C9_witness :
    json_loads "series_0" = none ∧
      parse_labels "series_0" = [("series_id", "series_0")] :=
  ⟨by decide, claim_C9 "series_0" (by decide)⟩
